import Mathlib

/-!
Shallow embedding of the SITL test-harness core of `src/Arduino.cpp`:
the simulated serial `Stream` (bounded output log, bounded input buffer,
optional owned SITL socket) and the virtual clock (`millis` / `micros`
with the `setMillis` / `resetMillis` override).

Buffer capacities (`sizeof(inputBuffer)`, `sizeof(fakeBuffer)`) are
build-time constants declared in a header outside the shown sources, so
they are carried as fields of the stream state.  Byte arrays are modelled
as total maps from index to stored byte; machine bytes are `Nat` values
reduced mod 256 where the code casts through `uint8_t`, and `uint64_t`
clock arithmetic is `Nat` arithmetic mod `2 ^ 64`.
-/

namespace Astra

/-- Modelled from the spec: the `SITLSocket` class is declared outside the
shown sources.  Per the spec it is a minimal owned TCP-style client
connection exchanging raw unframed bytes with an external simulator: a
bounded read returns whatever bytes are currently available (zero or
more, up to the requested bound), the connect attempt's outcome is
reported only as a boolean, and a failed connect leaves the socket
disconnected. -/
structure SITLSocket where
  connected : Bool
  pending : List Nat
  sent : List Nat
deriving Repr, DecidableEq

/-- Modelled from the spec: non-blocking bounded socket read, returning
whatever bytes are currently available, up to `n`. -/
def SITLSocket.read (sk : SITLSocket) (n : Nat) : List Nat × SITLSocket :=
  (sk.pending.take n, { sk with pending := sk.pending.drop n })

/-- Modelled from the spec: tearing the connection down. -/
def SITLSocket.disconnect (sk : SITLSocket) : SITLSocket :=
  { sk with connected := false }

/-- State of `Stream` from `src/Arduino.cpp`.  `incap = sizeof(inputBuffer)`
and `outcap = sizeof(fakeBuffer)` are the (unspecified) build-time buffer
sizes.  `fakeBuffer`/`cursor` are the output log and its write cursor;
`inputBuffer`/`inputCursor`/`inputLength` hold injected or socket-sourced
input. -/
structure Stream where
  incap : Nat
  outcap : Nat
  cursor : Nat
  fakeBuffer : Nat → Nat
  inputCursor : Nat
  inputLength : Nat
  inputBuffer : Nat → Nat
  sitlSocket : Option SITLSocket

/-- Single byte store `buf[i] = v`. -/
def setByte (buf : Nat → Nat) (i v : Nat) : Nat → Nat :=
  fun j => if j = i then v else buf j

/-- `memcpy(buf + off, bs, bs.length)`, byte by byte. -/
def writeBytes : (Nat → Nat) → Nat → List Nat → (Nat → Nat)
  | buf, _, [] => buf
  | buf, off, b :: bs => writeBytes (setByte buf off b) (off + 1) bs

/-- A freshly constructed stream: zeroed buffers, zero cursors, no socket. -/
def streamInit (icap ocap : Nat) : Stream :=
  { incap := icap, outcap := ocap, cursor := 0, fakeBuffer := fun _ => 0,
    inputCursor := 0, inputLength := 0, inputBuffer := fun _ => 0,
    sitlSocket := none }

/-- `Stream::clearBuffer` (src/Arduino.cpp:140-147). -/
def Stream.clearBuffer (st : Stream) : Stream :=
  { st with cursor := 0, fakeBuffer := setByte st.fakeBuffer 0 0,
            inputCursor := 0, inputLength := 0,
            inputBuffer := setByte st.inputBuffer 0 0 }

/-- `Stream::pollSITLInput` (src/Arduino.cpp:149-178): if a connected
socket exists, reset the drained buffer, compute the remaining room as an
`int`, and perform one bounded socket read (chunk at most 256 bytes),
appending the returned bytes and a trailing NUL. -/
def Stream.pollSITLInput (st : Stream) : Stream :=
  match st.sitlSocket with
  | none => st
  | some sk =>
    if sk.connected = false then st
    else
      let st1 := if st.inputCursor ≥ st.inputLength
                 then { st with inputCursor := 0, inputLength := 0 } else st
      let room : Int := (st1.incap : Int) - (st1.inputLength : Int)
      if room ≤ 0 then st1
      else
        let want : Nat := if 256 < room.toNat then 256 else room.toNat
        let res := sk.read want
        let st2 := { st1 with sitlSocket := some res.2 }
        if 0 < res.1.length then
          { st2 with
            inputBuffer := setByte (writeBytes st2.inputBuffer st2.inputLength res.1)
                             (st2.inputLength + res.1.length) 0,
            inputLength := st2.inputLength + res.1.length }
        else st2

/-- `Stream::available` (src/Arduino.cpp:180-186). -/
def Stream.available (st : Stream) : Bool × Stream :=
  let st1 := st.pollSITLInput
  (decide (st1.inputCursor < st1.inputLength), st1)

/-- `Stream::read` (src/Arduino.cpp:188-198): poll, then return -1 when
drained, else the next byte (cast through `uint8_t`), advancing the
cursor. -/
def Stream.read (st : Stream) : Int × Stream :=
  let st1 := st.pollSITLInput
  if st1.inputCursor ≥ st1.inputLength then (-1, st1)
  else (Int.ofNat (st1.inputBuffer st1.inputCursor % 256),
        { st1 with inputCursor := st1.inputCursor + 1 })

/-- `Stream::peek` (src/Arduino.cpp:216-224). -/
def Stream.peek (st : Stream) : Int × Stream :=
  let st1 := st.pollSITLInput
  if st1.inputCursor ≥ st1.inputLength then (-1, st1)
  else (Int.ofNat (st1.inputBuffer st1.inputCursor % 256), st1)

/-- `Stream::simulateInput` (src/Arduino.cpp:200-214).  The argument is
`none` for a null pointer, or `some s` where `s` is the byte content of
the NUL-terminated C string (so its entries are nonzero bytes, and
`strlen` returns `s.length`).  The length is truncated to
`sizeof(inputBuffer) - 1` when the string is too long; the bytes are
copied to the front of the buffer, a NUL terminator is appended, and the
cursor is reset. -/
def Stream.simulateInput (st : Stream) (data : Option (List Nat)) : Stream :=
  match data with
  | none => st
  | some s =>
    let len0 := s.length
    let len := if st.incap ≤ len0 then st.incap - 1 else len0
    { st with
      inputLength := len,
      inputBuffer := setByte (writeBytes st.inputBuffer 0 (s.take len)) len 0,
      inputCursor := 0 }

/-- Loop body of `Stream::readBytesUntil` (src/Arduino.cpp:226-237):
while fewer than `n` bytes are stored, read one byte; stop on the -1
sentinel or on the terminator (which is consumed but not stored).  The
returned list is the content written to the caller's buffer; the C
function's return value is its length. -/
def Stream.readLoopUntil (t : Nat) : Nat → Stream → List Nat × Stream
  | 0, st => ([], st)
  | n + 1, st =>
    let r := st.read
    if r.1 < 0 then ([], r.2)
    else if r.1 = Int.ofNat t then ([], r.2)
    else
      let rest := Stream.readLoopUntil t n r.2
      (r.1.toNat :: rest.1, rest.2)

/-- `Stream::readBytesUntil` (src/Arduino.cpp:226-237), including the
`length < 1` early return. -/
def Stream.readBytesUntil (t len : Nat) (st : Stream) : List Nat × Stream :=
  if len < 1 then ([], st) else Stream.readLoopUntil t len st

/-- `Stream::write(uint8_t)` (src/Arduino.cpp:255-271): append to the
output log while `cursor < sizeof(fakeBuffer) - 1` (keeping a NUL in the
next slot), forward to the socket when connected, and always return 1. -/
def Stream.write (st : Stream) (b : Nat) : Nat × Stream :=
  let st1 :=
    if st.cursor < st.outcap - 1 then
      { st with
        fakeBuffer := setByte (setByte st.fakeBuffer st.cursor (b % 256)) (st.cursor + 1) 0,
        cursor := st.cursor + 1 }
    else st
  let st2 :=
    match st1.sitlSocket with
    | some sk =>
      if sk.connected then
        { st1 with sitlSocket := some { sk with sent := sk.sent ++ [b % 256] } }
      else st1
    | none => st1
  (1, st2)

/-- `Stream::connectSITL` (src/Arduino.cpp:273-284): lazily construct the
socket, disconnect it first when already connected, then attempt the
connection.  The outcome of the underlying `SITLSocket::connect` call
(modelled from the spec: reported only as a boolean; a failure leaves the
socket disconnected) is the parameter `ok`. -/
def Stream.connectSITL (st : Stream) (ok : Bool) : Bool × Stream :=
  let sk := match st.sitlSocket with
            | none => SITLSocket.mk false [] []
            | some sk => sk
  let sk1 := if sk.connected then sk.disconnect else sk
  let sk2 := { sk1 with connected := ok }
  (ok, { st with sitlSocket := some sk2 })

/-- `Stream::isSITLConnected` (src/Arduino.cpp:295-298). -/
def Stream.isSITLConnected (st : Stream) : Bool :=
  match st.sitlSocket with
  | some sk => sk.connected
  | none => false

/-- `Stream::disconnectSITL` (src/Arduino.cpp:286-293). -/
def Stream.disconnectSITL (st : Stream) : Stream :=
  { st with sitlSocket := none }

/-- Auxiliary reader: `k` buffer bytes starting at position `c`. -/
def remBGo (buf : Nat → Nat) : Nat → Nat → List Nat
  | _, 0 => []
  | c, k + 1 => buf c % 256 :: remBGo buf (c + 1) k

/-- The unread bytes of the input buffer, as the reader will deliver them
(cast through `uint8_t`): positions `inputCursor` up to `inputLength`. -/
def remB (buf : Nat → Nat) (c L : Nat) : List Nat :=
  remBGo buf c (L - c)

/-- The pending (unread) input of a stream. -/
def Stream.pendingInput (st : Stream) : List Nat :=
  remB st.inputBuffer st.inputCursor st.inputLength

/-- `n` successive calls to `Stream::read`, collecting the returned values. -/
def readN : Nat → Stream → List Int × Stream
  | 0, st => ([], st)
  | n + 1, st =>
    let r := st.read
    let rest := readN n r.2
    (r.1 :: rest.1, rest.2)

/-- Successive calls to `Stream::write(uint8_t)`, one per listed byte,
collecting the returned counts. -/
def writeAll : Stream → List Nat → List Nat × Stream
  | st, [] => ([], st)
  | st, b :: bs =>
    let r := st.write b
    let rest := writeAll r.2 bs
    (r.1 :: rest.1, rest.2)

/-- Virtual-clock state: the globals `fakeMillis` / `useFakeMillis` of
src/Arduino.cpp:17-18.  The process-start constants `start` /
`startMicros` are `const` globals captured once at startup; they are
passed to the readers as explicit parameters since no operation can
change them. -/
structure Clock where
  fakeMillis : Nat
  useFakeMillis : Bool
deriving Repr, DecidableEq

/-- `uint64_t` subtraction `a - b` (wrapping mod `2 ^ 64`). -/
def sub64 (a b : Nat) : Nat :=
  (a % 2 ^ 64 + (2 ^ 64 - b % 2 ^ 64)) % 2 ^ 64

/-- `millis` (src/Arduino.cpp:20-27): the override value when active,
else real elapsed time since the captured start. -/
def millis (c : Clock) (realNowMs startMs : Nat) : Nat :=
  if c.useFakeMillis then c.fakeMillis else sub64 realNowMs startMs

/-- `micros` (src/Arduino.cpp:29-36): `fakeMillis * 1000` (in `uint64_t`
arithmetic) when the override is active, else real elapsed microseconds. -/
def micros (c : Clock) (realNowUs startUs : Nat) : Nat :=
  if c.useFakeMillis then c.fakeMillis * 1000 % 2 ^ 64 else sub64 realNowUs startUs

/-- `setMillis` (src/Arduino.cpp:38-42): store the `uint64_t` argument and
activate the override. -/
def setMillis (_c : Clock) (ms : Nat) : Clock :=
  { fakeMillis := ms % 2 ^ 64, useFakeMillis := true }

/-- `resetMillis` (src/Arduino.cpp:44-48). -/
def resetMillis (_c : Clock) : Clock :=
  { fakeMillis := 0, useFakeMillis := false }

/-- A stream state whose consumed socket (when one exists) can deliver no
further bytes during a poll: absent, disconnected, or drained. -/
def quiescent (st : Stream) : Prop :=
  ∀ sk, st.sitlSocket = some sk → sk.connected = false ∨ sk.pending = []

/-- A stream with input capacity 4 whose connected socket has 4 pending
bytes: one `available()` poll fills the whole input array. -/
def overfullPollStream : Stream :=
  { streamInit 4 8 with sitlSocket := some ⟨true, [1, 2, 3, 4], []⟩ }

/-- A stream whose connected socket has one pending byte. -/
def noisyStream : Stream :=
  { streamInit 4 4 with sitlSocket := some ⟨true, [7], []⟩ }

/-! ### Basic lemmas about the polling reader -/

theorem pollSITLInput_none {st : Stream} (h : st.sitlSocket = none) :
    st.pollSITLInput = st := by
  unfold Stream.pollSITLInput
  rw [h]

theorem read_none_of_lt {st : Stream} (h : st.sitlSocket = none)
    (hlt : st.inputCursor < st.inputLength) :
    st.read = (Int.ofNat (st.inputBuffer st.inputCursor % 256),
               { st with inputCursor := st.inputCursor + 1 }) := by
  simp only [Stream.read, pollSITLInput_none h]
  rw [if_neg (by omega)]

theorem read_none_of_ge {st : Stream} (h : st.sitlSocket = none)
    (hge : st.inputLength ≤ st.inputCursor) :
    st.read = (-1, st) := by
  simp only [Stream.read, pollSITLInput_none h]
  rw [if_pos (by omega)]

theorem remB_pos {buf : Nat → Nat} {c L : Nat} (h : c < L) :
    remB buf c L = buf c % 256 :: remB buf (c + 1) L := by
  unfold remB
  have h1 : L - c = (L - (c + 1)) + 1 := by omega
  rw [h1]
  rfl

theorem remB_neg {buf : Nat → Nat} {c L : Nat} (h : ¬ c < L) :
    remB buf c L = [] := by
  unfold remB
  have h1 : L - c = 0 := by omega
  rw [h1]
  rfl

theorem readN_none (n : Nat) : ∀ st : Stream, st.sitlSocket = none →
    (readN n st).1 = (st.pendingInput.take n).map Int.ofNat
        ++ List.replicate (n - st.pendingInput.length) (-1) ∧
    (readN n st).2.sitlSocket = none := by
  induction n with
  | zero =>
    intro st h
    exact ⟨by simp [readN], h⟩
  | succ n ih =>
    intro st h
    by_cases hcl : st.inputCursor < st.inputLength
    · have hr := read_none_of_lt h hcl
      have hpend : st.pendingInput
          = st.inputBuffer st.inputCursor % 256
              :: Stream.pendingInput { st with inputCursor := st.inputCursor + 1 } := by
        unfold Stream.pendingInput
        exact remB_pos hcl
      obtain ⟨ih1, ih2⟩ := ih { st with inputCursor := st.inputCursor + 1 } h
      constructor
      · simp only [readN, hr]
        rw [hpend, ih1]
        simp [Nat.succ_sub_succ]
      · simp only [readN, hr]
        exact ih2
    · have hr := read_none_of_ge h (by omega)
      have hpend : st.pendingInput = [] := remB_neg hcl
      obtain ⟨ih1, ih2⟩ := ih st h
      constructor
      · simp only [readN, hr]
        rw [ih1, hpend]
        simp [List.replicate_succ]
      · simp only [readN, hr]
        exact ih2

/-! ### Pointwise description of buffer writes -/

theorem writeBytes_lt_off : ∀ (bs : List Nat) (buf : Nat → Nat) (off j : Nat),
    j < off → writeBytes buf off bs j = buf j := by
  intro bs
  induction bs with
  | nil => intro buf off j _; rfl
  | cons b t ih =>
    intro buf off j hj
    show writeBytes (setByte buf off b) (off + 1) t j = buf j
    rw [ih _ _ _ (by omega)]
    simp [setByte, Nat.ne_of_lt hj]

theorem writeBytes_at : ∀ (bs : List Nat) (buf : Nat → Nat) (off j : Nat),
    j < bs.length → writeBytes buf off bs (off + j) = bs.getD j 0 := by
  intro bs
  induction bs with
  | nil => intro _ _ j hj; simp at hj
  | cons b t ih =>
    intro buf off j hj
    match j with
    | 0 =>
      show writeBytes (setByte buf off b) (off + 1) t (off + 0) = b
      rw [writeBytes_lt_off _ _ _ _ (by omega)]
      simp [setByte]
    | j' + 1 =>
      show writeBytes (setByte buf off b) (off + 1) t (off + (j' + 1)) = t.getD j' 0
      have : off + (j' + 1) = (off + 1) + j' := by omega
      rw [this, ih _ _ _ (by simpa using hj)]

theorem writeBytes_ge : ∀ (bs : List Nat) (buf : Nat → Nat) (off j : Nat),
    off + bs.length ≤ j → writeBytes buf off bs j = buf j := by
  intro bs
  induction bs with
  | nil => intro _ _ _ _; rfl
  | cons b t ih =>
    intro buf off j hj
    show writeBytes (setByte buf off b) (off + 1) t j = buf j
    simp only [List.length_cons] at hj
    rw [ih _ _ _ (by omega)]
    simp [setByte]
    omega

/-- Reading back a region that holds exactly the bytes of `l` (all below
256) yields `l`. -/
theorem remB_of_prefix : ∀ (l : List Nat) (buf : Nat → Nat) (c : Nat),
    (∀ j, j < l.length → buf (c + j) = l.getD j 0) → (∀ b ∈ l, b < 256) →
    remB buf c (c + l.length) = l := by
  intro l
  induction l with
  | nil => intro buf c _ _; exact remB_neg (by simp)
  | cons b t ih =>
    intro buf c hval hlt
    have hc : c < c + (b :: t).length := by simp
    rw [remB_pos hc]
    have hb : buf c = b := by
      have := hval 0 (by simp)
      simpa using this
    have hbmod : buf c % 256 = b := by
      rw [hb]
      exact Nat.mod_eq_of_lt (hlt b (by simp))
    have htail : remB buf (c + 1) ((c + 1) + t.length) = t := by
      apply ih
      · intro j hj
        have := hval (j + 1) (by simpa using hj)
        have harith : c + (j + 1) = (c + 1) + j := by omega
        rw [harith] at this
        simpa using this
      · intro x hx
        exact hlt x (by simp [hx])
    have harith : c + (b :: t).length = (c + 1) + t.length := by simp; omega
    rw [hbmod, harith, htail]

/-- Injecting a string shorter than the buffer produces exactly that
pending input (and touches neither capacity nor socket). -/
theorem simulateInput_state (st : Stream) (s : List Nat) (hcap : s.length < st.incap) :
    st.simulateInput (some s)
      = { st with inputLength := s.length,
                  inputBuffer := setByte (writeBytes st.inputBuffer 0 s) s.length 0,
                  inputCursor := 0 } := by
  simp only [Stream.simulateInput]
  rw [if_neg (by omega), List.take_length]

theorem pendingInput_simulateInput (st : Stream) (s : List Nat)
    (hcap : s.length < st.incap) (hbytes : ∀ b ∈ s, b < 256) :
    (st.simulateInput (some s)).pendingInput = s := by
  rw [simulateInput_state st s hcap]
  show remB (setByte (writeBytes st.inputBuffer 0 s) s.length 0) 0 s.length = s
  have h := remB_of_prefix s (setByte (writeBytes st.inputBuffer 0 s) s.length 0) 0
    (by
      intro j hj
      simp only [Nat.zero_add]
      have hne : j ≠ s.length := by omega
      simp only [setByte, if_neg hne]
      have h0 := writeBytes_at s st.inputBuffer 0 j hj
      simpa using h0)
    hbytes
  simpa using h

/-! ### The output log under repeated writes -/

theorem write_idle {st : Stream} (hsock : st.sitlSocket = none)
    (hfull : st.outcap - 1 ≤ st.cursor) (b : Nat) :
    st.write b = (1, st) := by
  have hc : ¬ st.cursor < st.outcap - 1 := by omega
  simp [Stream.write, hc, hsock]

theorem write_accept {st : Stream} (hsock : st.sitlSocket = none)
    (hroom : st.cursor < st.outcap - 1) (b : Nat) :
    st.write b = (1, { st with
      fakeBuffer := setByte (setByte st.fakeBuffer st.cursor (b % 256)) (st.cursor + 1) 0,
      cursor := st.cursor + 1 }) := by
  simp [Stream.write, hroom, hsock]

theorem writeAll_append : ∀ (xs ys : List Nat) (st : Stream),
    writeAll st (xs ++ ys)
      = ((writeAll st xs).1 ++ (writeAll (writeAll st xs).2 ys).1,
         (writeAll (writeAll st xs).2 ys).2) := by
  intro xs
  induction xs with
  | nil => intro ys st; simp [writeAll]
  | cons b t ih =>
    intro ys st
    have hc : (b :: t) ++ ys = b :: (t ++ ys) := rfl
    rw [hc]
    simp only [writeAll]
    rw [ih]
    rfl

theorem writeAll_full : ∀ (bs : List Nat) (st : Stream), st.sitlSocket = none →
    st.outcap - 1 ≤ st.cursor → writeAll st bs = (List.replicate bs.length 1, st) := by
  intro bs
  induction bs with
  | nil => intro st _ _; rfl
  | cons b t ih =>
    intro st hsock hfull
    simp only [writeAll, write_idle hsock hfull b]
    rw [ih st hsock hfull]
    simp [List.replicate_succ]

/-- While there is room (`cursor + len ≤ outcap - 1`) and no socket,
writing the bytes of `bs` returns 1 each time, advances the cursor by
`len`, fills positions `cursor ..= cursor + len - 1` with the bytes (mod
256) and a NUL right after them, and touches nothing else. -/
theorem writeAll_accept : ∀ (bs : List Nat) (st : Stream), st.sitlSocket = none →
    st.cursor + bs.length ≤ st.outcap - 1 →
    (writeAll st bs).1 = List.replicate bs.length 1 ∧
    (writeAll st bs).2.cursor = st.cursor + bs.length ∧
    (writeAll st bs).2.sitlSocket = none ∧
    (writeAll st bs).2.outcap = st.outcap ∧
    (∀ j, st.cursor ≤ j → j < st.cursor + bs.length →
      (writeAll st bs).2.fakeBuffer j = bs.getD (j - st.cursor) 0 % 256) ∧
    (0 < bs.length → (writeAll st bs).2.fakeBuffer (st.cursor + bs.length) = 0) ∧
    (∀ j, j < st.cursor ∨ st.cursor + bs.length < j →
      (writeAll st bs).2.fakeBuffer j = st.fakeBuffer j) := by
  intro bs
  induction bs with
  | nil =>
    intro st hsock _
    refine ⟨rfl, by simp [writeAll], hsock, rfl, ?_, ?_, ?_⟩
    · intro j h1 h2
      simp at h2
      omega
    · intro h
      simp at h
    · intro j _
      rfl
  | cons b t ih =>
    intro st hsock hroom
    simp only [List.length_cons] at hroom
    have hlt : st.cursor < st.outcap - 1 := by omega
    set st1 : Stream := { st with
      fakeBuffer := setByte (setByte st.fakeBuffer st.cursor (b % 256)) (st.cursor + 1) 0,
      cursor := st.cursor + 1 } with hst1
    have hw : st.write b = (1, st1) := write_accept hsock hlt b
    have hstep1 : (writeAll st (b :: t)).1 = 1 :: (writeAll st1 t).1 := by
      simp only [writeAll, hw]
    have hstep2 : (writeAll st (b :: t)).2 = (writeAll st1 t).2 := by
      simp only [writeAll, hw]
    have hsock1 : st1.sitlSocket = none := hsock
    have hroom1 : st1.cursor + t.length ≤ st1.outcap - 1 := by
      show st.cursor + 1 + t.length ≤ st.outcap - 1
      omega
    obtain ⟨ih1, ih2, ih3, ih4, ih5, ih6, ih7⟩ := ih st1 hsock1 hroom1
    have ih2' : (writeAll st1 t).2.cursor = st.cursor + 1 + t.length := ih2
    have ih5' : ∀ j, st.cursor + 1 ≤ j → j < st.cursor + 1 + t.length →
        (writeAll st1 t).2.fakeBuffer j = t.getD (j - (st.cursor + 1)) 0 % 256 := ih5
    have ih6' : 0 < t.length →
        (writeAll st1 t).2.fakeBuffer (st.cursor + 1 + t.length) = 0 := ih6
    have ih7' : ∀ j, j < st.cursor + 1 ∨ st.cursor + 1 + t.length < j →
        (writeAll st1 t).2.fakeBuffer j
          = setByte (setByte st.fakeBuffer st.cursor (b % 256)) (st.cursor + 1) 0 j := ih7
    refine ⟨?_, ?_, ?_, ?_, ?_, ?_, ?_⟩
    · rw [hstep1, ih1]
      simp [List.replicate_succ]
    · rw [hstep2, ih2']
      simp only [List.length_cons]
      omega
    · rw [hstep2]
      exact ih3
    · rw [hstep2]
      exact ih4
    · intro j hj1 hj2
      simp only [List.length_cons] at hj2
      rw [hstep2]
      by_cases hj0 : j = st.cursor
      · subst hj0
        rw [ih7' st.cursor (Or.inl (by omega))]
        have hne : st.cursor ≠ st.cursor + 1 := by omega
        simp [setByte, hne, Nat.sub_self]
      · rw [ih5' j (by omega) (by omega)]
        have harith : j - st.cursor = (j - (st.cursor + 1)) + 1 := by omega
        rw [harith]
        simp
    · intro _
      simp only [List.length_cons]
      rw [hstep2]
      by_cases ht : 0 < t.length
      · have h6 := ih6' ht
        have harith : st.cursor + (t.length + 1) = st.cursor + 1 + t.length := by omega
        rw [harith]
        exact h6
      · have htnil : t = [] := List.length_eq_zero.mp (by omega)
        subst htnil
        have hnil : (writeAll st1 ([] : List Nat)).2 = st1 := rfl
        rw [hnil, hst1]
        simp [setByte]
    · intro j hj
      simp only [List.length_cons] at hj
      rw [hstep2]
      rw [ih7' j (by omega)]
      simp only [setByte]
      rw [if_neg (by omega), if_neg (by omega)]

theorem getD_take : ∀ (l : List Nat) (n j : Nat), j < n → (l.take n).getD j 0 = l.getD j 0 := by
  intro l
  induction l with
  | nil => intro n j _; simp
  | cons b t ih =>
    intro n j hj
    cases n with
    | zero => omega
    | succ n' =>
      cases j with
      | zero => simp
      | succ j' =>
        simp only [List.take_succ_cons, List.getD_cons_succ]
        exact ih n' j' (by omega)

/-! ### The read-until loop on a socketless stream -/

theorem readLoopUntil_none (t : Nat) : ∀ (n : Nat) (st : Stream), st.sitlSocket = none →
    (Stream.readLoopUntil t n st).1
        = (st.pendingInput.takeWhile (fun b => b != t)).take n ∧
    (Stream.readLoopUntil t n st).2.inputCursor
        = st.inputCursor +
            (if (st.pendingInput.takeWhile (fun b => b != t)).length < n then
               (st.pendingInput.takeWhile (fun b => b != t)).length +
                 (if (st.pendingInput.takeWhile (fun b => b != t)).length
                     < st.pendingInput.length then 1 else 0)
             else n) ∧
    (Stream.readLoopUntil t n st).2.sitlSocket = none := by
  intro n
  induction n with
  | zero =>
    intro st h
    exact ⟨rfl, by simp [Stream.readLoopUntil], h⟩
  | succ n ih =>
    intro st h
    by_cases hcl : st.inputCursor < st.inputLength
    · have hr := read_none_of_lt h hcl
      have hpend : st.pendingInput
          = st.inputBuffer st.inputCursor % 256
              :: Stream.pendingInput { st with inputCursor := st.inputCursor + 1 } :=
        remB_pos hcl
      have hnneg : ¬ (Int.ofNat (st.inputBuffer st.inputCursor % 256) < 0) :=
        Int.not_lt.mpr (Int.ofNat_nonneg _)
      by_cases hvt : st.inputBuffer st.inputCursor % 256 = t
      · have heq : Int.ofNat (st.inputBuffer st.inputCursor % 256) = Int.ofNat t := by
          rw [hvt]
        refine ⟨?_, ?_, ?_⟩
        · simp only [Stream.readLoopUntil, hr]
          rw [if_neg hnneg, if_pos heq, hpend]
          simp [List.takeWhile_cons, hvt]
        · simp only [Stream.readLoopUntil, hr]
          rw [if_neg hnneg, if_pos heq, hpend]
          simp [List.takeWhile_cons, hvt]
        · simp only [Stream.readLoopUntil, hr]
          rw [if_neg hnneg, if_pos heq]
          exact h
      · have hne : ¬ (Int.ofNat (st.inputBuffer st.inputCursor % 256) = Int.ofNat t) :=
          fun hcon => hvt (Int.ofNat.inj hcon)
        obtain ⟨ih1, ih2, ih3⟩ := ih { st with inputCursor := st.inputCursor + 1 } h
        have hhead : (fun b => b != t) (st.inputBuffer st.inputCursor % 256) = true := by
          simp [hvt]
        refine ⟨?_, ?_, ?_⟩
        · simp only [Stream.readLoopUntil, hr]
          rw [if_neg hnneg, if_neg hne]
          rw [hpend, List.takeWhile_cons, if_pos hhead, List.take_succ_cons, ← ih1]
          rfl
        · simp only [Stream.readLoopUntil, hr]
          rw [if_neg hnneg, if_neg hne]
          rw [hpend, List.takeWhile_cons, if_pos hhead]
          simp only [List.length_cons]
          rw [ih2]
          show st.inputCursor + 1 + _ = st.inputCursor + _
          split_ifs <;> omega
        · simp only [Stream.readLoopUntil, hr]
          rw [if_neg hnneg, if_neg hne]
          exact ih3
    · have hr := read_none_of_ge h (by omega)
      have hpend : st.pendingInput = [] := remB_neg hcl
      have hneg : ((-1 : Int) < 0) := by omega
      refine ⟨?_, ?_, ?_⟩
      · simp only [Stream.readLoopUntil, hr]
        rw [if_pos hneg, hpend]
        simp
      · simp only [Stream.readLoopUntil, hr]
        rw [if_pos hneg, hpend]
        simp
      · simp only [Stream.readLoopUntil, hr]
        rw [if_pos hneg]
        exact h

/-- Polling an empty input buffer whose socket can deliver nothing
(absent, disconnected, or drained) leaves the buffer empty. -/
theorem poll_empty (icap ocap cur : Nat) (fb ib : Nat → Nat) (osk : Option SITLSocket)
    (hq : ∀ s, osk = some s → s.connected = false ∨ s.pending = []) :
    ((Stream.mk icap ocap cur fb 0 0 ib osk).pollSITLInput).inputLength = 0 ∧
    ((Stream.mk icap ocap cur fb 0 0 ib osk).pollSITLInput).inputCursor = 0 := by
  cases osk with
  | none => exact ⟨rfl, rfl⟩
  | some sk =>
    obtain ⟨conn, pend, sent⟩ := sk
    rcases hq ⟨conn, pend, sent⟩ rfl with hconn | hpend
    · simp only at hconn
      subst hconn
      exact ⟨rfl, rfl⟩
    · simp only at hpend
      subst hpend
      cases conn with
      | false => exact ⟨rfl, rfl⟩
      | true =>
        refine ⟨?_, ?_⟩ <;>
          · unfold Stream.pollSITLInput
            simp only [SITLSocket.read, List.take_nil, List.drop_nil]
            split
            · rfl
            · simp

/-! ### Claim theorems -/

/-- C1 (amended): for every byte string `s` whose length is strictly less
than the input buffer capacity (at most `capacity - 1`, the last slot
being reserved for the NUL terminator), on a stream with no socket,
`simulateInput s` followed by `length s + 1` calls to `read` returns the
bytes of `s` in order followed by the -1 sentinel. -/
theorem simulateInput_read_roundtrip (st : Stream) (s : List Nat)
    (hsock : st.sitlSocket = none) (hcap : s.length < st.incap)
    (hbytes : ∀ b ∈ s, 0 < b ∧ b < 256) :
    (readN (s.length + 1) (st.simulateInput (some s))).1
      = s.map Int.ofNat ++ [-1] := by
  have hsock' : (st.simulateInput (some s)).sitlSocket = none := by
    rw [simulateInput_state st s hcap]
    exact hsock
  have hpend := pendingInput_simulateInput st s hcap (fun b hb => (hbytes b hb).2)
  have h := (readN_none (s.length + 1) _ hsock').1
  rw [hpend] at h
  rw [h, List.take_of_length_le (by omega)]
  have h1 : s.length + 1 - s.length = 1 := by omega
  rw [h1]
  simp

theorem simulateInput_read_roundtrip_witness :
    (streamInit 4 4).sitlSocket = none ∧
    [65, 66].length < (streamInit 4 4).incap ∧
    (∀ b ∈ [65, 66], 0 < b ∧ b < 256) ∧
    (readN ([65, 66].length + 1) ((streamInit 4 4).simulateInput (some [65, 66]))).1
      = [65, 66].map Int.ofNat ++ [-1] :=
  ⟨rfl, by decide, by decide,
   simulateInput_read_roundtrip (streamInit 4 4) [65, 66] rfl (by decide) (by decide)⟩

/-- C1 counterexample: a string of length equal to the capacity (4, here)
satisfies the claim's hypothesis "length at most the capacity", but
`simulateInput` truncates it to 3 bytes, so reading back produces
`[1, 2, 3, -1, -1]` rather than the claimed bytes-then-sentinel sequence
`[1, 2, 3, 4, -1]`. -/
theorem simulateInput_capacity_truncates_cex :
    [1, 2, 3, 4].length ≤ (streamInit 4 4).incap ∧
    (readN 5 ((streamInit 4 4).simulateInput (some [1, 2, 3, 4]))).1 = [1, 2, 3, -1, -1] ∧
    (readN 5 ((streamInit 4 4).simulateInput (some [1, 2, 3, 4]))).1
      ≠ [1, 2, 3, 4].map Int.ofNat ++ [-1] :=
  ⟨by decide, by decide, by decide⟩

/-- C2: evaluation of the code at a state violating the claimed invariant.
`overfullPollStream` has input capacity 4, an empty input buffer and a
connected socket with 4 pending bytes; a single `available()` poll
appends all 4 bytes, so `inputLength` reaches the full capacity 4 instead
of staying at most `capacity - 1 = 3` (and the terminator store
`inputBuffer[inputLength] = 0` then hits index 4, out of bounds of the
4-byte array). -/
theorem pollSITLInput_invariant_violation :
    ((overfullPollStream.available).2).inputLength = 4 ∧
    overfullPollStream.incap = 4 ∧
    ¬ ((overfullPollStream.available).2).inputLength ≤ overfullPollStream.incap - 1 :=
  ⟨by decide, by decide, by decide⟩

/-- C3 counterexample: a stream whose output log (capacity 2) is already
full still reports 1 from `write`, even though the byte is dropped (the
log cursor does not move), where the claim requires the return value 0. -/
theorem write_full_still_returns_one_cex :
    (Stream.write ((Stream.write (streamInit 4 2) 65).2) 66).1 = 1 ∧
    (Stream.write ((Stream.write (streamInit 4 2) 65).2) 66).2.cursor
      = ((Stream.write (streamInit 4 2) 65).2).cursor ∧
    ¬ (Stream.write ((Stream.write (streamInit 4 2) 65).2) 66).1 = 0 :=
  ⟨by decide, by decide, by decide⟩

/-- C3 (amended): `write(byte)` always returns 1, whether the byte was
appended to the output log or silently dropped at capacity; neither the
log state nor the count of bytes sent over the socket affects the return
value. -/
theorem write_always_returns_one (st : Stream) (b : Nat) :
    (st.write b).1 = 1 := rfl

/-- C4: writing `C + 5` single bytes to a fresh stream whose output log
has capacity `C` returns 1 from every call (no error is ever signaled),
leaves the write cursor at `C - 1` — so exactly `C - 1` bytes are
retained, the excess silently dropped — with the retained log holding the
first `C - 1` bytes and the last slot `C - 1` holding the NUL terminator
marker. -/
theorem write_overflow_truncates (icap C : Nat) (hC : 1 ≤ C) (bs : List Nat)
    (hlen : bs.length = C + 5) :
    (writeAll (streamInit icap C) bs).1 = List.replicate (C + 5) 1 ∧
    (writeAll (streamInit icap C) bs).2.cursor = C - 1 ∧
    (∀ j, j < C - 1 → (writeAll (streamInit icap C) bs).2.fakeBuffer j
        = bs.getD j 0 % 256) ∧
    (writeAll (streamInit icap C) bs).2.fakeBuffer (C - 1) = 0 := by
  have hxlen : (bs.take (C - 1)).length = C - 1 := by
    rw [List.length_take]
    omega
  have hylen : (bs.drop (C - 1)).length = 6 := by
    rw [List.length_drop]
    omega
  obtain ⟨ha1, ha2, ha3, ha4, ha5, ha6, ha7⟩ :=
    writeAll_accept (bs.take (C - 1)) (streamInit icap C) rfl
      (by
        show 0 + (bs.take (C - 1)).length ≤ C - 1
        rw [hxlen]
        omega)
  have hmidcur : (writeAll (streamInit icap C) (bs.take (C - 1))).2.cursor = C - 1 := by
    rw [ha2]
    show 0 + (bs.take (C - 1)).length = C - 1
    rw [hxlen]
    omega
  have hmidfull : (writeAll (streamInit icap C) (bs.take (C - 1))).2.outcap - 1
      ≤ (writeAll (streamInit icap C) (bs.take (C - 1))).2.cursor := by
    rw [hmidcur, ha4]
    show C - 1 ≤ C - 1
    omega
  have hfull := writeAll_full (bs.drop (C - 1)) _ ha3 hmidfull
  have hWA : writeAll (streamInit icap C) bs
      = ((writeAll (streamInit icap C) (bs.take (C - 1))).1 ++ List.replicate 6 1,
         (writeAll (streamInit icap C) (bs.take (C - 1))).2) := by
    conv_lhs => rw [← List.take_append_drop (C - 1) bs]
    rw [writeAll_append, hfull, hylen]
  refine ⟨?_, ?_, ?_, ?_⟩
  · rw [hWA]
    show (writeAll (streamInit icap C) (bs.take (C - 1))).1 ++ List.replicate 6 1 = _
    rw [ha1, hxlen, ← List.replicate_add]
    congr 1
    omega
  · rw [hWA]
    exact hmidcur
  · intro j hj
    rw [hWA]
    have h5 := ha5 j (Nat.zero_le j)
      (by
        show j < 0 + (bs.take (C - 1)).length
        rw [hxlen]
        omega)
    rw [h5]
    show (bs.take (C - 1)).getD j 0 % 256 = bs.getD j 0 % 256
    rw [getD_take bs (C - 1) j hj]
  · rw [hWA]
    by_cases hc1 : C = 1
    · subst hc1
      show (writeAll (streamInit icap 1) (bs.take 0)).2.fakeBuffer 0 = 0
      rw [List.take_zero]
      rfl
    · have h6 := ha6 (by rw [hxlen]; omega)
      have harith : (streamInit icap C).cursor + (bs.take (C - 1)).length = C - 1 := by
        show 0 + (bs.take (C - 1)).length = C - 1
        rw [hxlen]
        omega
      rw [harith] at h6
      exact h6

theorem write_overflow_truncates_witness :
    1 ≤ 3 ∧ ([1, 2, 3, 4, 5, 6, 7, 8] : List Nat).length = 3 + 5 ∧
    (writeAll (streamInit 4 3) [1, 2, 3, 4, 5, 6, 7, 8]).1 = List.replicate (3 + 5) 1 ∧
    (writeAll (streamInit 4 3) [1, 2, 3, 4, 5, 6, 7, 8]).2.cursor = 3 - 1 ∧
    (writeAll (streamInit 4 3) [1, 2, 3, 4, 5, 6, 7, 8]).2.fakeBuffer (3 - 1) = 0 :=
  ⟨by decide, by decide,
   (write_overflow_truncates 4 3 (by decide) [1, 2, 3, 4, 5, 6, 7, 8] (by decide)).1,
   (write_overflow_truncates 4 3 (by decide) [1, 2, 3, 4, 5, 6, 7, 8] (by decide)).2.1,
   (write_overflow_truncates 4 3 (by decide) [1, 2, 3, 4, 5, 6, 7, 8] (by decide)).2.2.2⟩

/-- C5 counterexample: with the override set to `2 ^ 61` (a valid
`uint64_t` value), `micros` returns `2 ^ 61 * 1000 mod 2 ^ 64 = 0`, not
`2 ^ 61 * 1000` as the claim's "for any override value ms" clause
demands. -/
theorem micros_override_overflow_cex :
    micros (setMillis (Clock.mk 0 false) (2 ^ 61)) 0 0 = 0 ∧
    micros (setMillis (Clock.mk 0 false) (2 ^ 61)) 0 0 ≠ 2 ^ 61 * 1000 :=
  ⟨by decide, by decide⟩

/-- C5 (amended): after `setMillis ms` (any `uint64_t` value `ms`), every
`millis` reading returns exactly `ms` and every `micros` reading returns
`ms * 1000` reduced mod `2 ^ 64` — which equals `ms * 1000` exactly
whenever that product does not overflow; in particular `setMillis 5000`
gives `millis = 5000` and `micros = 5000000`.  The readings are pure
functions of the clock state, so they persist until `setMillis` or
`resetMillis` changes that state. -/
theorem setMillis_override_readings (c : Clock) (ms : Nat) (hms : ms < 2 ^ 64)
    (ra sa rb sb : Nat) :
    millis (setMillis c ms) ra sa = ms ∧
    micros (setMillis c ms) rb sb = ms * 1000 % 2 ^ 64 ∧
    (ms * 1000 < 2 ^ 64 → micros (setMillis c ms) rb sb = ms * 1000) := by
  have h1 : ms % 2 ^ 64 = ms := Nat.mod_eq_of_lt hms
  refine ⟨?_, ?_, ?_⟩
  · simp only [millis, setMillis, if_true]
    exact h1
  · simp only [micros, setMillis, if_true]
    rw [h1]
  · intro h2
    simp only [micros, setMillis, if_true]
    rw [h1]
    exact Nat.mod_eq_of_lt h2

theorem setMillis_override_readings_witness :
    5000 < 2 ^ 64 ∧
    millis (setMillis (Clock.mk 0 false) 5000) 123 45 = 5000 ∧
    micros (setMillis (Clock.mk 0 false) 5000) 678 90 = 5000 * 1000 ∧
    5000 * 1000 = 5000000 :=
  ⟨by decide,
   (setMillis_override_readings (Clock.mk 0 false) 5000 (by decide) 123 45 678 90).1,
   (setMillis_override_readings (Clock.mk 0 false) 5000 (by decide) 123 45 678 90).2.2
     (by decide),
   by decide⟩

/-- C6: after `setMillis` followed by `resetMillis`, a `millis` reading
computes real elapsed time `realNow - start` (in `uint64_t` arithmetic)
from the same original start constant — the state is indistinguishable
from a clock that was never overridden, and in particular the reading is
not reset to a fresh start point. -/
theorem resetMillis_resumes_elapsed (c : Clock) (ms realNowMs startMs : Nat) :
    millis (resetMillis (setMillis c ms)) realNowMs startMs = sub64 realNowMs startMs ∧
    millis (resetMillis (setMillis c ms)) realNowMs startMs
      = millis (Clock.mk 0 false) realNowMs startMs ∧
    resetMillis (setMillis c ms) = resetMillis c :=
  ⟨rfl, rfl, rfl⟩

/-- C7: on a socketless stream, `readBytesUntil terminator buffer
maxLength` copies into the caller's buffer the pending input bytes up to
(excluding) the first occurrence of the terminator, truncated to
`maxLength` — i.e. it stops when `maxLength` bytes are copied, the input
is exhausted, or the terminator is read — and the returned list is that
copied content (the C return value is its length).  The cursor
advancement shows that when the terminator is hit within the budget it is
consumed from the input (one extra advance) but not stored in the
output. -/
theorem readBytesUntil_spec (st : Stream) (t len : Nat) (hsock : st.sitlSocket = none) :
    (Stream.readBytesUntil t len st).1
        = (st.pendingInput.takeWhile (fun b => b != t)).take len ∧
    (Stream.readBytesUntil t len st).2.inputCursor
        = st.inputCursor +
            (if (st.pendingInput.takeWhile (fun b => b != t)).length < len then
               (st.pendingInput.takeWhile (fun b => b != t)).length +
                 (if (st.pendingInput.takeWhile (fun b => b != t)).length
                     < st.pendingInput.length then 1 else 0)
             else len) := by
  cases len with
  | zero =>
    constructor
    · rfl
    · show st.inputCursor = st.inputCursor + _
      simp
  | succ n =>
    have hloop := readLoopUntil_none t (n + 1) st hsock
    have hguard : Stream.readBytesUntil t (n + 1) st = Stream.readLoopUntil t (n + 1) st := by
      unfold Stream.readBytesUntil
      rw [if_neg (by omega)]
    rw [hguard]
    exact ⟨hloop.1, hloop.2.1⟩

theorem readBytesUntil_spec_witness :
    ((streamInit 8 8).simulateInput (some [1, 2, 9, 3])).sitlSocket = none ∧
    (Stream.readBytesUntil 9 10 ((streamInit 8 8).simulateInput (some [1, 2, 9, 3]))).1
      = [1, 2] ∧
    (Stream.readBytesUntil 9 10 ((streamInit 8 8).simulateInput (some [1, 2, 9, 3]))).2.inputCursor
      = 3 :=
  ⟨rfl,
   by
     have h := (readBytesUntil_spec ((streamInit 8 8).simulateInput (some [1, 2, 9, 3]))
       9 10 rfl).1
     rw [h]
     decide,
   by
     have h := (readBytesUntil_spec ((streamInit 8 8).simulateInput (some [1, 2, 9, 3]))
       9 10 rfl).2
     rw [h]
     decide⟩

/-- C8: a failed connect attempt (the underlying socket connect returning
false, e.g. for a closed/refused port) makes `connectSITL` return false,
leaves `isSITLConnected` false, and a subsequent `write` still succeeds
locally: it returns 1 and affects only the output log — the socket state
and the whole input side are untouched. -/
theorem connectSITL_failure_local_write (st : Stream) (b : Nat) :
    (st.connectSITL false).1 = false ∧
    (st.connectSITL false).2.isSITLConnected = false ∧
    ((st.connectSITL false).2.write b).1 = 1 ∧
    ((st.connectSITL false).2.write b).2.sitlSocket = (st.connectSITL false).2.sitlSocket ∧
    ((st.connectSITL false).2.write b).2.inputCursor = st.inputCursor ∧
    ((st.connectSITL false).2.write b).2.inputLength = st.inputLength ∧
    ((st.connectSITL false).2.write b).2.inputBuffer = st.inputBuffer := by
  obtain ⟨icap, ocap, cur, fb, ic, il, ib, sk⟩ := st
  by_cases hcur : cur < ocap - 1
  · cases sk with
    | none =>
      refine ⟨rfl, rfl, rfl, ?_, ?_, ?_, ?_⟩ <;>
        first
          | rfl
          | (simp only [Stream.connectSITL, Stream.write, if_pos hcur]
             rfl)
    | some s =>
      refine ⟨rfl, rfl, rfl, ?_, ?_, ?_, ?_⟩ <;>
        first
          | rfl
          | (simp only [Stream.connectSITL, Stream.write, if_pos hcur]
             rfl)
  · cases sk with
    | none =>
      refine ⟨rfl, rfl, rfl, ?_, ?_, ?_, ?_⟩ <;>
        first
          | rfl
          | (simp only [Stream.connectSITL, Stream.write, if_neg hcur]
             rfl)
    | some s =>
      refine ⟨rfl, rfl, rfl, ?_, ?_, ?_, ?_⟩ <;>
        first
          | rfl
          | (simp only [Stream.connectSITL, Stream.write, if_neg hcur]
             rfl)

/-- C9 counterexample: `clearBuffer` on a stream whose connected socket
has a pending byte does reset both buffers, but the very next
`available()` polls the socket, refills the input buffer, and returns
true — not false as the claim states for every stream state. -/
theorem clearBuffer_available_cex :
    (noisyStream.clearBuffer.available).1 = true ∧
    ¬ (noisyStream.clearBuffer.available).1 = false :=
  ⟨by decide, by decide⟩

/-- C9 (amended): `clearBuffer` resets the output log cursor and the
input cursor/length to zero and leaves the socket connection state
unchanged; afterwards `available()` returns false provided the socket can
deliver no bytes (absent, disconnected, or no pending data) — a connected
socket with pending bytes refills the buffer during `available()`
itself. -/
theorem clearBuffer_resets (st : Stream) (h : quiescent st) :
    st.clearBuffer.cursor = 0 ∧
    st.clearBuffer.inputCursor = 0 ∧
    st.clearBuffer.inputLength = 0 ∧
    st.clearBuffer.sitlSocket = st.sitlSocket ∧
    (st.clearBuffer.available).1 = false := by
  refine ⟨rfl, rfl, rfl, rfl, ?_⟩
  have hp := poll_empty st.incap st.outcap 0 (setByte st.fakeBuffer 0 0)
    (setByte st.inputBuffer 0 0) st.sitlSocket h
  have h1 : (st.clearBuffer.pollSITLInput).inputLength = 0 := hp.1
  have h2 : (st.clearBuffer.pollSITLInput).inputCursor = 0 := hp.2
  simp [Stream.available, h1, h2]

theorem clearBuffer_resets_witness :
    quiescent (streamInit 4 4) ∧
    (streamInit 4 4).clearBuffer.cursor = 0 ∧
    (streamInit 4 4).clearBuffer.inputCursor = 0 ∧
    (streamInit 4 4).clearBuffer.inputLength = 0 ∧
    (streamInit 4 4).clearBuffer.sitlSocket = (streamInit 4 4).sitlSocket ∧
    ((streamInit 4 4).clearBuffer.available).1 = false :=
  ⟨fun sk h => Option.noConfusion h,
   (clearBuffer_resets (streamInit 4 4) (fun sk h => Option.noConfusion h)).1,
   (clearBuffer_resets (streamInit 4 4) (fun sk h => Option.noConfusion h)).2.1,
   (clearBuffer_resets (streamInit 4 4) (fun sk h => Option.noConfusion h)).2.2.1,
   (clearBuffer_resets (streamInit 4 4) (fun sk h => Option.noConfusion h)).2.2.2.1,
   (clearBuffer_resets (streamInit 4 4) (fun sk h => Option.noConfusion h)).2.2.2.2⟩

/-- C10: `simulateInput` with a null pointer returns immediately and
leaves the entire stream state unchanged. -/
theorem simulateInput_null_noop (st : Stream) :
    st.simulateInput none = st := rfl

end Astra
